import Mathlib

/-!
Verification of the drop-source extraction pipeline of
`chanceman-item-tracker` (vite.config.ts and src/ui/dropList.ts).

The TypeScript code is shallowly embedded: strings are `String`/`List Char`,
JS numbers produced by `Number(...)` on the numerals matched by the regexes
are exact rationals (`ℚ`), the DOM that cheerio exposes to `parseItemPage`
is a small structured `Page` type, and the filesystem seen by
`loadLocalChanceDrops` is an explicit list of (filename, parse result)
pairs.  JS regex matching (leftmost match, greedy with backtracking) is
unfolded by hand for the concrete regexes occurring in the code; the
character class `\s` is modelled by `Char.isWhitespace` (space, tab, CR,
LF), which covers every whitespace character the repository's data can
contain.
-/

namespace ChanceMan

/-- Numeric value of a digit string, as computed by JS `Number` on a string
of decimal digits (exact, since we work in `ℚ` downstream). -/
def digitsToNat (l : List Char) : ℕ :=
  l.foldl (fun a c => a * 10 + (c.toNat - '0'.toNat)) 0

/-- A decimal numeral as captured by a regex group and handed to JS
`Number`: integer digits (thousands-separator commas already stripped, as
`replace(/,/g, "")` does) and fractional digits (empty when the numeral had
no `.` part). -/
structure JsNum where
  intDigits : List Char
  fracDigits : List Char
deriving DecidableEq, Repr

/-- Value of JS `Number` on the numeral, as an exact rational. -/
def jsNumber (x : JsNum) : ℚ :=
  (digitsToNat x.intDigits : ℚ) +
    (digitsToNat x.fracDigits : ℚ) / (10 : ℚ) ^ x.fracDigits.length

/-- The `denom > 0` test of the source, kept executable over `ℕ`: a numeral
made of digits is `> 0` iff some digit is nonzero.  `jsPos_iff_jsNumber_pos`
below proves this equivalent to `0 < jsNumber x`. -/
def jsPosB (x : JsNum) : Bool :=
  decide (0 < digitsToNat x.intDigits + digitsToNat x.fracDigits)

/-- `(?:,\d{3})*` of the denominator regex: greedily consume groups of a
comma followed by exactly three digits; returns the digits collected (the
commas are what `replace(/,/g, "")` strips) and the rest of the input. -/
def commaGroups : List Char → List Char × List Char
  | ',' :: a :: b :: c :: r =>
    if a.isDigit && b.isDigit && c.isDigit then
      let p := commaGroups r
      (a :: b :: c :: p.1, p.2)
    else ([], ',' :: a :: b :: c :: r)
  | l => ([], l)

/-- Denominator group `(\d+(?:,\d{3})*(?:\.\d+)?)` of the first regex of
`parseDropRateNumeric`, starting right after the `/`.  Nothing follows this
group in the regex, so greedy matching never backtracks. -/
def matchDenom (l : List Char) : Option JsNum :=
  let e1 := l.takeWhile Char.isDigit
  let r1 := l.dropWhile Char.isDigit
  if e1.isEmpty then none else
  let p := commaGroups r1
  let intDigits := e1 ++ p.1
  match p.2 with
  | '.' :: r3 =>
    let d2 := r3.takeWhile Char.isDigit
    if d2.isEmpty then some ⟨intDigits, []⟩ else some ⟨intDigits, d2⟩
  | _ => some ⟨intDigits, []⟩

/-- Attempt of the regex `(\d+(?:\.\d+)?)\/(\d+(?:,\d{3})*(?:\.\d+)?)` at
one fixed start position.  The numerator `\d+` is greedy and a shorter
match always leaves a digit in front, which satisfies neither `.` nor `/`,
so maximal munch with the two explicit continuations is exact. -/
def tryNDAt (l : List Char) : Option (JsNum × JsNum) :=
  let d1 := l.takeWhile Char.isDigit
  let r1 := l.dropWhile Char.isDigit
  if d1.isEmpty then none else
  match r1 with
  | [] => none
  | c :: r2 =>
    if c = '/' then (matchDenom r2).map (fun d => (⟨d1, []⟩, d))
    else if c = '.' then
      let d2 := r2.takeWhile Char.isDigit
      let r3 := r2.dropWhile Char.isDigit
      if d2.isEmpty then none else
      match r3 with
      | [] => none
      | c2 :: r4 =>
        if c2 = '/' then (matchDenom r4).map (fun d => (⟨d1, d2⟩, d))
        else none
    else none

/-- Leftmost match of the `N/D` regex: JS `String.match` tries each start
position left to right. -/
def scanND : List Char → Option (JsNum × JsNum)
  | [] => none
  | c :: r =>
    match tryNDAt (c :: r) with
    | some x => some x
    | none => scanND r

/-- Group `(\d+(?:\.\d+)?)` at the end of the second regex (nothing
follows, so greedy matching is exact). -/
def readDenom2 (l : List Char) : Option JsNum :=
  let d := l.takeWhile Char.isDigit
  let r := l.dropWhile Char.isDigit
  if d.isEmpty then none else
  match r with
  | '.' :: r2 =>
    let d2 := r2.takeWhile Char.isDigit
    if d2.isEmpty then some ⟨d, []⟩ else some ⟨d, d2⟩
  | _ => some ⟨d, []⟩

/-- Alternative `\s*in\s*` (case-insensitive) of the second regex, applied
after the literal `1`. -/
def branchIn (r : List Char) : Option JsNum :=
  match r.dropWhile Char.isWhitespace with
  | i :: n :: r2 =>
    if i.toLower = 'i' && n.toLower = 'n' then
      readDenom2 (r2.dropWhile Char.isWhitespace)
    else none
  | _ => none

/-- Alternative `\s*:\s*` of the second regex, applied after the literal
`1`; tried when the `in` alternative fails (JS backtracks into the second
alternative). -/
def branchColon (r : List Char) : Option JsNum :=
  match r.dropWhile Char.isWhitespace with
  | ':' :: r2 => readDenom2 (r2.dropWhile Char.isWhitespace)
  | _ => none

/-- Attempt of `1(?:\s*in\s*|\s*:\s*)(\d+(?:\.\d+)?)` (flag `i`) at one
start position. -/
def try2At : List Char → Option JsNum
  | [] => none
  | c :: r =>
    if c = '1' then
      match branchIn r with
      | some x => some x
      | none => branchColon r
    else none

/-- Leftmost match of the `1 in D` / `1:D` regex. -/
def scan2 : List Char → Option JsNum
  | [] => none
  | c :: r =>
    match try2At (c :: r) with
    | some x => some x
    | none => scan2 r

/-- The `m2` fallback of `parseDropRateNumeric`: `1 in 128` / `1:128`. -/
def parseFallback (raw : String) : Option ℚ :=
  match scan2 raw.data with
  | some d => if jsPosB d then some (1 / jsNumber d) else none
  | none => none

/-- `parseDropRateNumeric` of vite.config.ts.  `none` on the argument
models a JS `undefined`/`null` argument; the empty string is also falsy.
The matched numerals are never `NaN`, so the `isNaN` guards are vacuous;
when the first regex matches but its denominator is not `> 0`, control
falls through to the second regex, exactly as in the code. -/
def parseDropRateNumeric : Option String → Option ℚ
  | none => none
  | some raw =>
    if raw = "" then none else
    match scanND raw.data with
    | some nd =>
      if jsPosB nd.2 then some (jsNumber nd.1 / jsNumber nd.2)
      else parseFallback raw
    | none => parseFallback raw

/-! ## DOM model and DropSource -/

/-- `DropSource` of vite.config.ts.  `dropRateNumeric` merges the TS
`undefined`/`null` cases into `Option`, as every consumer in the repository
does (`??`, truthiness). -/
structure DropSource where
  sourceName : String
  type : String
  dropRateRaw : Option String
  dropRateNumeric : Option ℚ
  quantity : Option String
  requirements : Option String
  notes : Option String
  wikiUrl : Option String
deriving DecidableEq, Repr

/-- A table cell as cheerio exposes it to `parseSourceRow`: its text
content, and the `href` attribute of each `<a>` inside it in document
order (`none` when the anchor has no `href` attribute). -/
structure Cell where
  text : String
  anchors : List (Option String)
deriving DecidableEq, Repr

/-- A `<tr>`: its `td`/`th` cells in order. -/
structure Row where
  cells : List Cell
deriving DecidableEq, Repr

/-- A `<table>`: its `class` attribute and the rows of its `tbody`. -/
structure Table where
  cls : String
  rows : List Row
deriving DecidableEq, Repr

/-- One `h2`/`h3` heading together with the tables found among the sibling
nodes up to the next `h2`/`h3` (directly or nested), as collected by the
section loop of `parseItemPage`. -/
structure Section where
  heading : String
  tables : List Table
deriving DecidableEq, Repr

/-- The parsed document: text of `h1#firstHeading` (empty when the element
is absent), tables appearing before the first `h2`/`h3` heading, and the
heading sections in document order. -/
structure Page where
  firstHeading : String
  preTables : List Table
  sections : List Section
deriving DecidableEq, Repr

/-- JS `String.prototype.trim`: strip leading and trailing whitespace
(defined over the character list so that it evaluates by `rfl`; Lean's
built-in `String.trim` has the same meaning but is defined via
`Substring` well-founded auxiliaries that the kernel cannot unfold). -/
def jsTrim (s : String) : String :=
  String.mk (((s.data.dropWhile Char.isWhitespace).reverse.dropWhile
    Char.isWhitespace).reverse)

/-- Case-insensitive substring test on character lists. -/
def isSubList (needle : List Char) : List Char → Bool
  | [] => needle.isEmpty
  | c :: r => needle.isPrefixOf (c :: r) || isSubList needle r

/-- `needle` occurs in `hay` up to case: the case-insensitive regex
substring tests (`/pat1|pat2|…/i.test(s)`).  Lowercasing is done
per-character over `data` (Lean's `String.toLower` maps the same
`Char.toLower` but through byte-position loops the kernel cannot
unfold). -/
def containsCI (hay needle : String) : Bool :=
  isSubList (needle.data.map Char.toLower) (hay.data.map Char.toLower)

theorem length_dropWhile_le (p : Char → Bool) :
    ∀ l : List Char, (l.dropWhile p).length ≤ l.length
  | [] => le_refl _
  | c :: r => by
    rw [List.dropWhile]
    split
    · exact (length_dropWhile_le p r).trans (Nat.le_succ _)
    · exact le_refl _

/-- Structural worker for `collapseWS`: the flag records whether the
previous character was whitespace (so only the first character of a run
emits the space). -/
def collapseWSAux : Bool → List Char → List Char
  | _, [] => []
  | prevWS, c :: r =>
    if c.isWhitespace then
      if prevWS then collapseWSAux true r else ' ' :: collapseWSAux true r
    else c :: collapseWSAux false r

/-- `/\s+/g → " "`: collapse every maximal whitespace run to one space. -/
def collapseWS (l : List Char) : List Char :=
  collapseWSAux false l

/-- `(colTexts[0] || "").replace(/\s+/g, " ").trim()`. -/
def normalizeName (s : String) : String :=
  jsTrim (String.mk (collapseWS s.data))

/-- The rate-cell test of `parseSourceRow`: the cell's lowercased text
contains `/` or `%`, or matches
`/chance|chance to|rare|common|uncommon|1 in|1\/|drop/` (the text is
already lowercase, so the regex is a substring test). -/
def looksLikeRate (t : String) : Bool :=
  containsCI t "/" || containsCI t "%" || containsCI t "chance" ||
  containsCI t "chance to" || containsCI t "rare" || containsCI t "common" ||
  containsCI t "uncommon" || containsCI t "1 in" || containsCI t "1/" ||
  containsCI t "drop"

/-- Word character of the JS `\b` boundary (`[A-Za-z0-9_]`). -/
def isWordChar (c : Char) : Bool :=
  c.isAlpha || c.isDigit || c = '_'

/-- `\b` right after a digit: the next character (if any) is not a word
character. -/
def atBoundary : List Char → Bool
  | [] => true
  | c :: _ => !isWordChar c

/-- Attempt of the quantity regex `x?\s?(\d+–\d+|\d+)\b` at one start
position; returns the captured group.  `x?` / `\s?` consume one optional
character; if the range alternative `\d+–\d+` fails its boundary, JS
backtracks into the plain `\d+` alternative. -/
def tryQtyAt (l : List Char) : Option (List Char) :=
  let l1 := match l with
    | 'x' :: r => r
    | _ => l
  let l2 := match l1 with
    | c :: r => if c.isWhitespace then r else l1
    | _ => l1
  let d1 := l2.takeWhile Char.isDigit
  let r1 := l2.dropWhile Char.isDigit
  if d1.isEmpty then none else
  match r1 with
  | '–' :: r2 =>
    let d2 := r2.takeWhile Char.isDigit
    let r3 := r2.dropWhile Char.isDigit
    if !d2.isEmpty && atBoundary r3 then some (d1 ++ '–' :: d2)
    else if atBoundary r1 then some d1 else none
  | _ => if atBoundary r1 then some d1 else none

/-- Leftmost match of the quantity regex over the joined row text. -/
def scanQty : List Char → Option (List Char)
  | [] => none
  | c :: r =>
    match tryQtyAt (c :: r) with
    | some x => some x
    | none => scanQty r

/-- The type heuristic cascade of `parseSourceRow` (`s` is the lowercased
source name; the last two branches test with flag `i`, which on the
lowercased name is the same substring test). -/
def heuristicType (sourceName : String) (notes : String) : String :=
  if containsCI sourceName "pickpocket" || containsCI sourceName "pickpocketing" ||
     containsCI sourceName "stall" || containsCI sourceName "thieving" then "thieving"
  else if containsCI sourceName "barrows" || containsCI sourceName "minigame" ||
     containsCI sourceName "gauntlet" || containsCI sourceName "raids" ||
     containsCI sourceName "treasure trails" || containsCI sourceName "treasure trail" ||
     containsCI sourceName "clue" then "minigame"
  else if containsCI sourceName "fish" || containsCI sourceName "fishing" ||
     containsCI sourceName "harpoon" || containsCI sourceName "net" ||
     containsCI sourceName "fishing spot" || containsCI sourceName "mining" ||
     containsCI sourceName "mine" || containsCI sourceName "ore" ||
     containsCI sourceName "woodcut" || containsCI sourceName "log" ||
     containsCI sourceName "chop" || containsCI sourceName "farm" ||
     containsCI sourceName "skilling" then "skilling"
  else if containsCI sourceName "chest" || containsCI sourceName "cupboard" ||
     containsCI sourceName "crate" || containsCI sourceName "drawer" ||
     containsCI sourceName "shelf" || containsCI sourceName "coffin" ||
     containsCI sourceName "box" || containsCI sourceName "altar" ||
     containsCI sourceName "trough" || containsCI sourceName "container" then "container"
  else if containsCI sourceName "npc" || containsCI sourceName "monster" ||
     containsCI sourceName "boss" || containsCI sourceName "guard" ||
     containsCI sourceName "shade" || containsCI sourceName "giant" ||
     containsCI sourceName "dragon" || containsCI sourceName "rabbit" ||
     containsCI sourceName "rat" || containsCI sourceName "goblin" ||
     containsCI sourceName "man" || containsCI sourceName "woman" ||
     containsCI sourceName "demon" || containsCI sourceName "zombie" ||
     containsCI sourceName "skeleton" then "monster"
  else if containsCI notes "clue" || containsCI notes "casket" ||
     containsCI notes "treasure trail" then "clue"
  else "other"

/-- `extractLinkFromCell`: only the first anchor of the cell is examined;
an absent or empty `href` is falsy. -/
def extractLinkFromCell (cell : Cell) : Option String :=
  match cell.anchors.head? with
  | some (some href) =>
    if href = "" then none
    else if List.isPrefixOf "/".data href.data then
      some ("https://oldschool.runescape.wiki" ++ href)
    else if List.isPrefixOf "http".data href.data then some href
    else none
  | _ => none

/-- `parseSourceRow` of vite.config.ts. -/
def parseSourceRow (row : Row) : Option DropSource :=
  let cols := row.cells
  if cols.isEmpty then none else
  let colTexts := cols.map (fun c => jsTrim c.text)
  let sourceName := normalizeName (colTexts.headD "")
  if sourceName = "" then none else
  let rawRate := colTexts.find? looksLikeRate
  let quantity := (scanQty (String.intercalate " " colTexts).data).map String.mk
  let notesStr := jsTrim (String.intercalate " | " (colTexts.drop 1))
  let notes : Option String := if notesStr = "" then none else some notesStr
  some {
    sourceName := sourceName
    type := heuristicType sourceName (notes.getD "")
    dropRateRaw := rawRate
    dropRateNumeric := parseDropRateNumeric rawRate
    quantity := quantity
    requirements := none
    notes := notes
    wikiUrl := extractLinkFromCell (cols.headD ⟨"", []⟩)
  }

/-- The table-class filter of the section loop:
`/item-drops|wikitable|infobox|itemsources|item-drop-table/i.test(class)`. -/
def sectionClassTest (cls : String) : Bool :=
  containsCI cls "item-drops" || containsCI cls "wikitable" ||
  containsCI cls "infobox" || containsCI cls "itemsources" ||
  containsCI cls "item-drop-table"

/-- The four sequential heading-based type overrides applied to a parsed
row inside the section loop (each later test overwrites an earlier hit). -/
def applyHeadingHint (heading : String) (ds : DropSource) : DropSource :=
  let d1 := if containsCI heading "drop sources" || containsCI heading "drops" ||
               containsCI heading "monster drops" then { ds with type := "monster" } else ds
  let d2 := if containsCI heading "thieving" || containsCI heading "pickpocketing" ||
               containsCI heading "stalls" then { d1 with type := "thieving" } else d1
  let d3 := if containsCI heading "clue" || containsCI heading "treasure trails" ||
               containsCI heading "casket" then { d2 with type := "clue" } else d2
  if containsCI heading "chest" || containsCI heading "cupboard" ||
     containsCI heading "drawer" || containsCI heading "container" then
    { d3 with type := "container" } else d3

/-- One table of the section loop: skipped only when its class fails the
filter AND it has no `tbody tr` rows (the code's `&&`); otherwise every
row is parsed and the heading hint applied. -/
def sectionTableSources (heading : String) (t : Table) : List DropSource :=
  if !sectionClassTest t.cls && t.rows.isEmpty then []
  else (t.rows.filterMap parseSourceRow).map (applyHeadingHint heading)

/-- Structural worker for `wordsOf`: `cur` accumulates the current word
reversed. -/
def wordsOfAux : List Char → List Char → List (List Char)
  | cur, [] => if cur.isEmpty then [] else [cur.reverse]
  | cur, c :: r =>
    if c.isWhitespace then
      if cur.isEmpty then wordsOfAux [] r else cur.reverse :: wordsOfAux [] r
    else wordsOfAux (c :: cur) r

/-- Split a character list into its maximal whitespace-free words. -/
def wordsOf (l : List Char) : List (List Char) :=
  wordsOfAux [] l

/-- CSS class-token test of the fallback selector
`table.item-drops, table.wikitable`: the class attribute, split on
whitespace, contains the token exactly (case-sensitive). -/
def hasClassToken (cls token : String) : Bool :=
  (wordsOf cls.data).contains token.data

/-- All tables of the page in document order (for the fallback selector). -/
def allTables (p : Page) : List Table :=
  p.preTables ++ p.sections.flatMap (fun s => s.tables)

/-- `parseItemPage` of vite.config.ts: title from `h1#firstHeading` (the
supplied item name when blank), then the section loop, then the fallback
pass over every `table.item-drops, table.wikitable` on the page (rows
matched by both passes are pushed twice). -/
def parseItemPage (page : Page) (itemName : String) :
    String × List DropSource :=
  let itemTitle := if jsTrim page.firstHeading = "" then itemName
    else jsTrim page.firstHeading
  let sectionSources :=
    page.sections.flatMap (fun sec => sec.tables.flatMap (sectionTableSources sec.heading))
  let fallbackSources :=
    ((allTables page).filter
        (fun t => hasClassToken t.cls "item-drops" || hasClassToken t.cls "wikitable")).flatMap
      (fun t => t.rows.filterMap parseSourceRow)
  (itemTitle, sectionSources ++ fallbackSources)

/-! ## Local override loader (`loadLocalChanceDrops`) -/

/-- One `items` entry of a ChanceMan override file. -/
structure ChanceEntry where
  itemId : Option Int
  name : Option String
  rarity : Option String
deriving DecidableEq, Repr

/-- One `dropTableSections` entry. -/
structure ChanceSection where
  header : Option String
  items : Option (List ChanceEntry)
deriving DecidableEq, Repr

/-- A parsed override file (`JSON.parse` result).  A falsy
`dropTableSections` (absent/null) is `none`; note a present empty list is
truthy and therefore kept. -/
structure ChanceFile where
  name : Option String
  dropTableSections : Option (List ChanceSection)
deriving DecidableEq, Repr

/-- `sourceName := json.name || f`: an absent or empty `name` falls back to
the filename. -/
def chanceSourceName (fname : String) (json : ChanceFile) : String :=
  match json.name with
  | some n => if n = "" then fname else n
  | none => fname

/-- Records emitted from one successfully parsed override file. -/
def chanceFileSources (itemName : String) (itemId : Int) (fname : String)
    (json : ChanceFile) : List DropSource :=
  match json.dropTableSections with
  | none => []
  | some secs =>
    secs.flatMap (fun sec =>
      (sec.items.getD []).filterMap (fun it =>
        if it.itemId = some itemId ∨ it.name = some itemName then
          some {
            sourceName := chanceSourceName fname json
            type := "monster"
            dropRateRaw := it.rarity
            dropRateNumeric := parseDropRateNumeric it.rarity
            quantity := none
            requirements := none
            notes := sec.header
            wikiUrl := none
          }
        else none))

/-- `loadLocalChanceDrops` of vite.config.ts.  `dirExists` models
`fs.existsSync`; each directory entry carries the outcome of reading and
`JSON.parse`-ing it (`none` = the per-file `try` caught an error, the file
is skipped and the loop continues). -/
def loadLocalChanceDrops (dirExists : Bool) (files : List (String × Option ChanceFile))
    (itemName : String) (itemId : Int) : List DropSource :=
  if !dirExists then []
  else files.flatMap (fun f =>
    match f.2 with
    | none => []
    | some json => chanceFileSources itemName itemId f.1 json)

/-! ## Merge/dedup engine -/

/-- The dedup key of the orchestrator:
`` `${s.sourceName}|${s.type}|${s.dropRateRaw ?? ""}` ``. -/
def dedupKey (s : DropSource) : String :=
  s.sourceName ++ "|" ++ s.type ++ "|" ++ s.dropRateRaw.getD ""

/-- The dedup loop: walk the combined list with the `seen` set of keys,
keeping a record iff its key is new. -/
def mergeLoop : List DropSource → List String → List DropSource
  | [], _ => []
  | s :: rest, seen =>
    if dedupKey s ∈ seen then mergeLoop rest seen
    else s :: mergeLoop rest (dedupKey s :: seen)

/-- The merge step of the request handler: overrides first, then scraped,
deduplicated by `dedupKey` with first occurrence winning. -/
def merge (overrides scraped : List DropSource) : List DropSource :=
  mergeLoop (overrides ++ scraped) []

/-- Specification-side dedup, written as in §4.4 of the spec: keep the
first occurrence of each key and drop every later record with the same
key, preserving first-seen order and the records themselves. -/
def keepFirstByKey : List DropSource → List DropSource
  | [] => []
  | x :: xs =>
    x :: keepFirstByKey (xs.filter (fun y => dedupKey y ≠ dedupKey x))
termination_by l => l.length
decreasing_by
  exact Nat.lt_succ_of_le (List.length_filter_le _ _)

/-! ## UI drop list ordering (src/ui/dropList.ts) -/

/-- The effective sort key `a.dropRateNumeric ?? -1` of the comparator in
`renderDropSources`. -/
def effRate (d : DropSource) : ℚ :=
  d.dropRateNumeric.getD (-1)

/-- `a` may precede `b` under the comparator
`(a, b) => an === bn ? localeCompare(names) : bn - an`
(comparator value `≤ 0`); `localeCompare` is modelled by the string
order. -/
def dropLe (a b : DropSource) : Bool :=
  if effRate a = effRate b then a.sourceName ≤ b.sourceName
  else effRate b < effRate a

/-- The display order produced by `drops.sort(...)` in
`renderDropSources`: a sort of the list consistent with the comparator
(JS `Array.prototype.sort` with a consistent comparator). -/
def renderedOrder (drops : List DropSource) : List DropSource :=
  drops.mergeSort dropLe

/-! ## Request orchestrator (`buildDropPlugin` handler) -/

/-- `ItemDropsResponse` of vite.config.ts. -/
structure ItemDropsResponse where
  itemId : Int
  itemName : String
  sources : List DropSource
  sourceUrl : Option String
deriving DecidableEq, Repr

/-- HTTP outcome of one `/item-drops` request. -/
inductive HandlerResult where
  | badRequest (msg : String)
  | ok (body : ItemDropsResponse)
  | serverError (msg : String)
deriving DecidableEq, Repr

/-- The environment a single request runs against: the outcome of the
mapping fetch (`none` = `loadMapping` threw), the outcome of the wiki page
fetch for a given URL (`none` = `axios.get` threw), and the override
directory. -/
structure ServerEnv where
  mappingResult : Option (List (Int × String))
  fetchPage : String → Option Page
  overridesDirExists : Bool
  overrideFiles : List (String × Option ChanceFile)

/-- The per-item response cache (a `Map` keyed by `` `item_${itemId}` ``). -/
def Cache := List (String × ItemDropsResponse)

/-- `itemNameToWikiPath`: replace spaces by underscores. -/
def itemNameToWikiPath (name : String) : String :=
  String.mk (name.data.map (fun c => if c = ' ' then '_' else c))

/-- `itemIdToName` on the loaded mapping (`find` returns the first entry
with the requested id), with the handler's `?? Item_<id>` fallback. -/
def resolveItemName (mapping : List (Int × String)) (id : Int) : String :=
  match mapping.find? (fun e => e.1 = id) with
  | some e => e.2
  | none => "Item_" ++ toString id

/-- The `/item-drops` request handler.  The query parameter is modelled
after `Number(...)`: `none` = parameter absent, `some none` = present but
`NaN`, `some (some n)` = numeric.  The whole body runs inside `try`; every
failure (`loadMapping`, page fetch) aborts to the `catch`, which answers
500 and touches nothing else.  The cache is written exactly once, after
the full response has been assembled. -/
def handleRequest (env : ServerEnv) (cache : Cache) (query : Option (Option Int)) :
    HandlerResult × Cache :=
  match query with
  | none => (.badRequest "Missing ?itemId=", cache)
  | some none => (.badRequest "Invalid itemId", cache)
  | some (some itemId) =>
    let cacheKey := "item_" ++ toString itemId
    match cache.lookup cacheKey with
    | some cached => (.ok cached, cache)
    | none =>
      match env.mappingResult with
      | none => (.serverError "Failed to fetch item drops", cache)
      | some mapping =>
        let itemName := resolveItemName mapping itemId
        let url := "https://oldschool.runescape.wiki/w/" ++ itemNameToWikiPath itemName
        match env.fetchPage url with
        | none => (.serverError "Failed to fetch item drops", cache)
        | some page =>
          let parsed := parseItemPage page itemName
          let localDrops :=
            loadLocalChanceDrops env.overridesDirExists env.overrideFiles parsed.1 itemId
          let resp : ItemDropsResponse := {
            itemId := itemId
            itemName := parsed.1
            sources := merge localDrops parsed.2
            sourceUrl := some url
          }
          (.ok resp, (cacheKey, resp) :: cache)


/-! ## Verification -/


theorem takeWhile_append_all (p : Char → Bool) :
    ∀ l1 l2 : List Char, (∀ c ∈ l1, p c = true) →
      List.takeWhile p (l1 ++ l2) = l1 ++ List.takeWhile p l2
  | [], l2, _ => by simp
  | c :: r, l2, h => by
    have hc : p c = true := h c (List.mem_cons_self _ _)
    simp only [List.cons_append, List.takeWhile_cons_of_pos hc]
    rw [takeWhile_append_all p r l2 (fun x hx => h x (List.mem_cons_of_mem _ hx))]

theorem dropWhile_append_all (p : Char → Bool) :
    ∀ l1 l2 : List Char, (∀ c ∈ l1, p c = true) →
      List.dropWhile p (l1 ++ l2) = List.dropWhile p l2
  | [], l2, _ => by simp
  | c :: r, l2, h => by
    have hc : p c = true := h c (List.mem_cons_self _ _)
    simp only [List.cons_append, List.dropWhile_cons_of_pos hc]
    exact dropWhile_append_all p r l2 (fun x hx => h x (List.mem_cons_of_mem _ hx))

theorem takeWhile_head_neg {p : Char → Bool} {l : List Char}
    (h : ∀ c, l.head? = some c → p c = false) : List.takeWhile p l = [] := by
  cases l with
  | nil => rfl
  | cons c r => exact List.takeWhile_cons_of_neg (by simp [h c rfl])

theorem dropWhile_head_neg {p : Char → Bool} {l : List Char}
    (h : ∀ c, l.head? = some c → p c = false) : List.dropWhile p l = l := by
  cases l with
  | nil => rfl
  | cons c r => exact List.dropWhile_cons_of_neg (by simp [h c rfl])

theorem commaGroups_eq_nil (l : List Char)
    (h : ∀ c, l.head? = some c → c ≠ ',') : commaGroups l = ([], l) := by
  rw [commaGroups.eq_def]
  split
  · exact absurd rfl (h ',' rfl)
  · rfl

theorem matchDenom_digits (ds post : List Char) (hne : ds ≠ [])
    (hd : ∀ c ∈ ds, c.isDigit = true)
    (hpost : ∀ c, post.head? = some c → (c.isDigit = false ∧ c ≠ ',' ∧ c ≠ '.')) :
    matchDenom (ds ++ post) = some ⟨ds, []⟩ := by
  obtain ⟨d, ds', rfl⟩ := List.exists_cons_of_ne_nil hne
  unfold matchDenom
  rw [takeWhile_append_all _ _ _ hd, dropWhile_append_all _ _ _ hd,
    takeWhile_head_neg (fun c hc => (hpost c hc).1),
    dropWhile_head_neg (fun c hc => (hpost c hc).1)]
  simp only [commaGroups_eq_nil post (fun c hc => (hpost c hc).2.1),
    List.append_nil, List.isEmpty_cons, Bool.false_eq_true, if_false]
  cases post with
  | nil => rfl
  | cons c r =>
    have hcd : c ≠ '.' := (hpost c rfl).2.2
    split
    · next r3 heq => exact absurd (List.cons.injEq .. ▸ heq) (by simp [hcd])
    · rfl

theorem tryNDAt_digits (ns ds post : List Char) (hnse : ns ≠ [])
    (hns : ∀ c ∈ ns, c.isDigit = true) (hdse : ds ≠ [])
    (hds : ∀ c ∈ ds, c.isDigit = true)
    (hpost : ∀ c, post.head? = some c → (c.isDigit = false ∧ c ≠ ',' ∧ c ≠ '.')) :
    tryNDAt (ns ++ '/' :: (ds ++ post)) = some (⟨ns, []⟩, ⟨ds, []⟩) := by
  obtain ⟨n0, ns', rfl⟩ := List.exists_cons_of_ne_nil hnse
  unfold tryNDAt
  rw [takeWhile_append_all _ _ _ hns, dropWhile_append_all _ _ _ hns,
    List.takeWhile_cons_of_neg (by decide), List.dropWhile_cons_of_neg (by decide),
    List.append_nil]
  simp only [List.isEmpty_cons, Bool.false_eq_true, if_false]
  rw [matchDenom_digits ds post hdse hds hpost]
  rfl

theorem tryNDAt_nondigit {c : Char} (l : List Char) (hc : c.isDigit = false) :
    tryNDAt (c :: l) = none := by
  unfold tryNDAt
  rw [List.takeWhile_cons_of_neg (by simp [hc])]
  rfl

theorem scanND_append_nondigit : ∀ (pre l : List Char),
    (∀ c ∈ pre, c.isDigit = false) → scanND (pre ++ l) = scanND l
  | [], l, _ => by simp
  | c :: r, l, h => by
    rw [List.cons_append, scanND, tryNDAt_nondigit _ (h c (List.mem_cons_self _ _))]
    exact scanND_append_nondigit r l (fun x hx => h x (List.mem_cons_of_mem _ hx))

theorem scanND_digits (ns ds post : List Char) (hnse : ns ≠ [])
    (hns : ∀ c ∈ ns, c.isDigit = true) (hdse : ds ≠ [])
    (hds : ∀ c ∈ ds, c.isDigit = true)
    (hpost : ∀ c, post.head? = some c → (c.isDigit = false ∧ c ≠ ',' ∧ c ≠ '.')) :
    scanND (ns ++ '/' :: (ds ++ post)) = some (⟨ns, []⟩, ⟨ds, []⟩) := by
  obtain ⟨n0, ns', rfl⟩ := List.exists_cons_of_ne_nil hnse
  rw [List.cons_append, scanND,
    show n0 :: (ns' ++ '/' :: (ds ++ post)) = (n0 :: ns') ++ '/' :: (ds ++ post) by rfl,
    tryNDAt_digits _ ds post hnse hns hdse hds hpost]

theorem jsNumber_int (l : List Char) : jsNumber ⟨l, []⟩ = (digitsToNat l : ℚ) := by
  simp [jsNumber, digitsToNat]

theorem jsPosB_int (l : List Char) : jsPosB ⟨l, []⟩ = decide (0 < digitsToNat l) := by
  simp [jsPosB, digitsToNat]

theorem jsNumber_nonneg (x : JsNum) : 0 ≤ jsNumber x := by
  unfold jsNumber
  positivity

theorem not_ws_of_digit {c : Char} (h : c.isDigit = true) : c.isWhitespace = false := by
  rcases Bool.eq_false_or_eq_true c.isWhitespace with hw | hw
  · exfalso
    simp only [Char.isWhitespace, Bool.or_eq_true, decide_eq_true_eq] at hw
    rcases hw with ((h1 | h1) | h1) | h1 <;> subst h1 <;> exact absurd h (by decide)
  · exact hw

theorem scanND_cons_none {c : Char} {r : List Char} (h : tryNDAt (c :: r) = none) :
    scanND (c :: r) = scanND r := by
  rw [scanND, h]

theorem tryNDAt_all_digits (l : List Char) (h : ∀ c ∈ l, c.isDigit = true) :
    tryNDAt l = none := by
  cases l with
  | nil => rfl
  | cons c r =>
    unfold tryNDAt
    have ht := takeWhile_append_all Char.isDigit (c :: r) [] h
    have hdr := dropWhile_append_all Char.isDigit (c :: r) [] h
    simp only [List.takeWhile_nil, List.dropWhile_nil, List.append_nil] at ht hdr
    rw [ht, hdr]
    rfl

theorem scanND_all_digits : ∀ l : List Char, (∀ c ∈ l, c.isDigit = true) →
    scanND l = none
  | [], _ => rfl
  | c :: r, h => by
    rw [scanND_cons_none (tryNDAt_all_digits _ h)]
    exact scanND_all_digits r (fun x hx => h x (List.mem_cons_of_mem _ hx))

theorem dropWhile_ws_digits (l : List Char) (h : ∀ c ∈ l, c.isDigit = true) :
    List.dropWhile Char.isWhitespace l = l :=
  dropWhile_head_neg (fun c hc => not_ws_of_digit (h c (by cases l with
    | nil => exact absurd hc (by simp)
    | cons a r => rw [List.head?_cons] at hc; exact (Option.some.injEq .. ▸ hc) ▸ List.mem_cons_self a r)))

theorem readDenom2_all_digits (l : List Char) (hne : l ≠ [])
    (h : ∀ c ∈ l, c.isDigit = true) : readDenom2 l = some ⟨l, []⟩ := by
  obtain ⟨d, l', rfl⟩ := List.exists_cons_of_ne_nil hne
  unfold readDenom2
  have ht := takeWhile_append_all Char.isDigit (d :: l') [] h
  have hdr := dropWhile_append_all Char.isDigit (d :: l') [] h
  simp only [List.takeWhile_nil, List.dropWhile_nil, List.append_nil] at ht hdr
  rw [ht, hdr]
  rfl

theorem parseRate_general_nd (pre ns ds post : List Char)
    (hnse : ns ≠ []) (hns : ∀ c ∈ ns, c.isDigit = true)
    (hdse : ds ≠ []) (hds : ∀ c ∈ ds, c.isDigit = true)
    (hpre : ∀ c ∈ pre, c.isDigit = false)
    (hpost : ∀ c, post.head? = some c → (c.isDigit = false ∧ c ≠ ',' ∧ c ≠ '.'))
    (hpos : 0 < digitsToNat ds) :
    parseDropRateNumeric (some (String.mk (pre ++ (ns ++ '/' :: (ds ++ post)))))
      = some ((digitsToNat ns : ℚ) / (digitsToNat ds : ℚ)) := by
  have hne : pre ++ (ns ++ '/' :: (ds ++ post)) ≠ [] := by
    simp [hnse]
  have hstr : ¬(String.mk (pre ++ (ns ++ '/' :: (ds ++ post))) = "") := by
    intro h
    exact hne (congrArg String.data h)
  rw [parseDropRateNumeric, if_neg hstr,
    show (String.mk (pre ++ (ns ++ '/' :: (ds ++ post)))).data
      = pre ++ (ns ++ '/' :: (ds ++ post)) from rfl,
    scanND_append_nondigit pre _ hpre,
    scanND_digits ns ds post hnse hns hdse hds hpost]
  simp only [jsPosB_int, hpos, decide_True, if_true, jsNumber_int]


theorem parseRate_oneIn (ds : List Char) (hne : ds ≠ [])
    (hds : ∀ c ∈ ds, c.isDigit = true) (hpos : 0 < digitsToNat ds) :
    parseDropRateNumeric (some (String.mk ('1' :: ' ' :: 'i' :: 'n' :: ' ' :: ds)))
      = some (1 / (digitsToNat ds : ℚ)) := by
  have hstr : ¬(String.mk ('1' :: ' ' :: 'i' :: 'n' :: ' ' :: ds) = "") := by
    intro h
    exact absurd (congrArg String.data h) (by simp)
  have hscan : scanND ('1' :: ' ' :: 'i' :: 'n' :: ' ' :: ds) = none := by
    rw [scanND_cons_none (show tryNDAt ('1' :: ' ' :: 'i' :: 'n' :: ' ' :: ds) = none from rfl),
      scanND_cons_none (tryNDAt_nondigit _ (by decide)),
      scanND_cons_none (tryNDAt_nondigit _ (by decide)),
      scanND_cons_none (tryNDAt_nondigit _ (by decide)),
      scanND_cons_none (tryNDAt_nondigit _ (by decide))]
    exact scanND_all_digits ds hds
  have hbi : branchIn (' ' :: 'i' :: 'n' :: ' ' :: ds) = some ⟨ds, []⟩ := by
    rw [show branchIn (' ' :: 'i' :: 'n' :: ' ' :: ds)
        = readDenom2 (List.dropWhile Char.isWhitespace ds) from rfl,
      dropWhile_ws_digits ds hds, readDenom2_all_digits ds hne hds]
  have h3 : try2At ('1' :: ' ' :: 'i' :: 'n' :: ' ' :: ds) = some ⟨ds, []⟩ := by
    calc try2At ('1' :: ' ' :: 'i' :: 'n' :: ' ' :: ds)
        = (match branchIn (' ' :: 'i' :: 'n' :: ' ' :: ds) with
            | some x => some x
            | none => branchColon (' ' :: 'i' :: 'n' :: ' ' :: ds)) := rfl
      _ = some ⟨ds, []⟩ := by rw [hbi]
  have h2 : scan2 ('1' :: ' ' :: 'i' :: 'n' :: ' ' :: ds) = some ⟨ds, []⟩ := by
    rw [scan2, h3]
  rw [parseDropRateNumeric, if_neg hstr,
    show (String.mk ('1' :: ' ' :: 'i' :: 'n' :: ' ' :: ds)).data
      = '1' :: ' ' :: 'i' :: 'n' :: ' ' :: ds from rfl, hscan, parseFallback,
    show (String.mk ('1' :: ' ' :: 'i' :: 'n' :: ' ' :: ds)).data
      = '1' :: ' ' :: 'i' :: 'n' :: ' ' :: ds from rfl, h2]
  simp only [jsPosB_int, hpos, decide_True, if_true, jsNumber_int]

theorem parseRate_colon (ds : List Char) (hne : ds ≠ [])
    (hds : ∀ c ∈ ds, c.isDigit = true) (hpos : 0 < digitsToNat ds) :
    parseDropRateNumeric (some (String.mk ('1' :: ':' :: ds)))
      = some (1 / (digitsToNat ds : ℚ)) := by
  obtain ⟨d0, ds', rfl⟩ := List.exists_cons_of_ne_nil hne
  have hstr : ¬(String.mk ('1' :: ':' :: d0 :: ds') = "") := by
    intro h
    exact absurd (congrArg String.data h) (by simp)
  have hscan : scanND ('1' :: ':' :: d0 :: ds') = none := by
    rw [scanND_cons_none (show tryNDAt ('1' :: ':' :: d0 :: ds') = none from rfl),
      scanND_cons_none (tryNDAt_nondigit _ (by decide))]
    exact scanND_all_digits _ hds
  have h3 : try2At ('1' :: ':' :: d0 :: ds') = some ⟨d0 :: ds', []⟩ := by
    rw [show try2At ('1' :: ':' :: d0 :: ds')
        = readDenom2 (List.dropWhile Char.isWhitespace (d0 :: ds')) from rfl,
      dropWhile_ws_digits _ hds, readDenom2_all_digits _ (by simp) hds]
  have h2 : scan2 ('1' :: ':' :: d0 :: ds') = some ⟨d0 :: ds', []⟩ := by
    rw [scan2, h3]
  rw [parseDropRateNumeric, if_neg hstr,
    show (String.mk ('1' :: ':' :: d0 :: ds')).data = '1' :: ':' :: d0 :: ds' from rfl,
    hscan, parseFallback,
    show (String.mk ('1' :: ':' :: d0 :: ds')).data = '1' :: ':' :: d0 :: ds' from rfl, h2]
  simp only [jsPosB_int, hpos, decide_True, if_true, jsNumber_int]


/-- C1: a string containing `N/D` (N, D numeric, thousands separators in D
stripped, decimals allowed) with `D > 0` parses to `N/D` (first match, per
C6's first-pattern rule); a string matching `1 in D` / `1:D`
(case-insensitive, optional whitespace) with `D > 0` parses to `1/D`. -/
theorem c1_parseRate_patterns :
    (∀ pre ns ds post : List Char,
        ns ≠ [] → (∀ c ∈ ns, c.isDigit = true) →
        ds ≠ [] → (∀ c ∈ ds, c.isDigit = true) →
        (∀ c ∈ pre, c.isDigit = false) →
        (∀ c, post.head? = some c → (c.isDigit = false ∧ c ≠ ',' ∧ c ≠ '.')) →
        0 < digitsToNat ds →
        parseDropRateNumeric (some (String.mk (pre ++ (ns ++ '/' :: (ds ++ post)))))
          = some ((digitsToNat ns : ℚ) / (digitsToNat ds : ℚ)))
    ∧ parseDropRateNumeric (some "1/1,092.3") = some (10 / 10923)
    ∧ (∀ ds : List Char, ds ≠ [] → (∀ c ∈ ds, c.isDigit = true) →
        0 < digitsToNat ds →
        parseDropRateNumeric (some (String.mk ('1' :: ' ' :: 'i' :: 'n' :: ' ' :: ds)))
          = some (1 / (digitsToNat ds : ℚ))
        ∧ parseDropRateNumeric (some (String.mk ('1' :: ':' :: ds)))
          = some (1 / (digitsToNat ds : ℚ)))
    ∧ parseDropRateNumeric (some "1 IN 50") = some (1 / 50) := by
  refine ⟨parseRate_general_nd, ?_,
    fun ds h1 h2 h3 => ⟨parseRate_oneIn ds h1 h2 h3, parseRate_colon ds h1 h2 h3⟩, ?_⟩
  · rw [show parseDropRateNumeric (some "1/1,092.3")
        = some (jsNumber ⟨['1'], []⟩ / jsNumber ⟨['1', '0', '9', '2'], ['3']⟩) from rfl]
    norm_num [jsNumber, show digitsToNat ['1'] = 1 from rfl,
      show digitsToNat ['1', '0', '9', '2'] = 1092 from rfl,
      show digitsToNat ['3'] = 3 from rfl, show digitsToNat [] = 0 from rfl]
  · rw [show parseDropRateNumeric (some "1 IN 50")
        = some (1 / jsNumber ⟨['5', '0'], []⟩) from rfl]
    norm_num [jsNumber, show digitsToNat ['5', '0'] = 50 from rfl,
      show digitsToNat [] = 0 from rfl]

theorem c1_parseRate_patterns_witness :
    parseDropRateNumeric
        (some (String.mk (['R', 'a', 't', 'e', ':', ' ']
          ++ (['5'] ++ '/' :: (['1', '2', '8'] ++ [])))))
      = some ((digitsToNat ['5'] : ℚ) / (digitsToNat ['1', '2', '8'] : ℚ)) :=
  c1_parseRate_patterns.1 ['R', 'a', 't', 'e', ':', ' '] ['5'] ['1', '2', '8'] []
    (by decide) (by decide) (by decide) (by decide) (by decide)
    (by intro c hc; simp at hc) (by decide)

theorem tryNDAt_some_mem_slash {l : List Char} {x : JsNum × JsNum}
    (h : tryNDAt l = some x) : '/' ∈ l := by
  have hsub : List.Sublist (List.dropWhile Char.isDigit l) l :=
    List.dropWhile_sublist _
  simp only [tryNDAt] at h
  split at h
  · exact absurd h (by simp)
  · split at h
    · exact absurd h (by simp)
    · rename_i c r2 heq
      by_cases hc : c = '/'
      · subst hc
        exact hsub.mem (heq ▸ List.mem_cons_self '/' r2)
      · rw [if_neg hc] at h
        by_cases hc2 : c = '.'
        · rw [if_pos hc2] at h
          subst hc2
          split at h
          · exact absurd h (by simp)
          · split at h
            · exact absurd h (by simp)
            · rename_i c2 r4 heq2
              by_cases hc3 : c2 = '/'
              · subst hc3
                have h1 : '/' ∈ List.dropWhile Char.isDigit r2 :=
                  heq2 ▸ List.mem_cons_self '/' r4
                have h2 : '/' ∈ r2 := (List.dropWhile_sublist _).mem h1
                exact hsub.mem (heq ▸ List.mem_cons_of_mem '.' h2)
              · rw [if_neg hc3] at h
                exact absurd h (by simp)
        · rw [if_neg hc2] at h
          exact absurd h (by simp)

theorem scanND_eq_none_no_slash : ∀ l : List Char, '/' ∉ l → scanND l = none
  | [], _ => rfl
  | c :: r, h => by
    rcases hh : tryNDAt (c :: r) with _ | x
    · rw [scanND_cons_none hh]
      exact scanND_eq_none_no_slash r (fun hm => h (List.mem_cons_of_mem _ hm))
    · exact absurd (tryNDAt_some_mem_slash hh) h

theorem try2At_some_head {l : List Char} {x : JsNum} (h : try2At l = some x) :
    l.head? = some '1' := by
  cases l with
  | nil => exact absurd h (by simp [try2At])
  | cons c r =>
    simp only [try2At] at h
    split at h
    · next hc => rw [List.head?_cons, hc]
    · exact absurd h (by simp)

theorem scan2_eq_none_no_one : ∀ l : List Char, '1' ∉ l → scan2 l = none
  | [], _ => rfl
  | c :: r, h => by
    rcases hh : try2At (c :: r) with _ | x
    · rw [scan2, hh]
      exact scan2_eq_none_no_one r (fun hm => h (List.mem_cons_of_mem _ hm))
    · exfalso
      have := try2At_some_head hh
      rw [List.head?_cons, Option.some.injEq] at this
      exact h (this ▸ List.mem_cons_self c r)

/-- C6: null/empty input and strings matching neither pattern (no `/` and
no `1` anywhere, e.g. "common", "rare") give null; the parser never throws
(it is a total function); and on a multi-rate string only the first
occurring pattern is used. -/
theorem c6_parseRate_nonmatching :
    parseDropRateNumeric none = none
    ∧ parseDropRateNumeric (some "") = none
    ∧ (∀ s : String, '/' ∉ s.data → '1' ∉ s.data →
        parseDropRateNumeric (some s) = none)
    ∧ parseDropRateNumeric (some "common") = none
    ∧ parseDropRateNumeric (some "rare") = none
    ∧ parseDropRateNumeric (some "1/128; 1/65") = some (1 / 128) := by
  refine ⟨rfl, rfl, ?_, rfl, rfl, ?_⟩
  · intro s h1 h2
    by_cases hs : s = ""
    · subst hs
      rfl
    · rw [parseDropRateNumeric, if_neg hs, scanND_eq_none_no_slash _ h1,
        parseFallback, scan2_eq_none_no_one _ h2]
  · rw [show parseDropRateNumeric (some "1/128; 1/65")
        = some (jsNumber ⟨['1'], []⟩ / jsNumber ⟨['1', '2', '8'], []⟩) from rfl]
    norm_num [jsNumber, show digitsToNat ['1'] = 1 from rfl,
      show digitsToNat ['1', '2', '8'] = 128 from rfl,
      show digitsToNat [] = 0 from rfl]

theorem c6_parseRate_nonmatching_witness :
    parseDropRateNumeric (some "very rare  (members)") = none :=
  c6_parseRate_nonmatching.2.2.1 "very rare  (members)" (by decide) (by decide)



theorem jsPos_iff_jsNumber_pos (x : JsNum) : jsPosB x = true ↔ 0 < jsNumber x := by
  rw [jsPosB, decide_eq_true_iff]
  constructor
  · intro h
    rcases Nat.eq_zero_or_pos (digitsToNat x.intDigits) with h1 | h1
    · have h2 : 0 < digitsToNat x.fracDigits := by omega
      have h3 : (0 : ℚ) < (digitsToNat x.fracDigits : ℚ) / (10 : ℚ) ^ x.fracDigits.length := by
        apply div_pos
        · exact_mod_cast h2
        · positivity
      rw [jsNumber, h1]
      push_cast
      linarith
    · have h3 : (0 : ℚ) < (digitsToNat x.intDigits : ℚ) := by exact_mod_cast h1
      have h4 : (0 : ℚ) ≤ (digitsToNat x.fracDigits : ℚ) / (10 : ℚ) ^ x.fracDigits.length := by
        positivity
      rw [jsNumber]
      linarith
  · intro h
    by_contra hb
    have h1 : digitsToNat x.intDigits = 0 ∧ digitsToNat x.fracDigits = 0 := by omega
    rw [jsNumber, h1.1, h1.2] at h
    simp at h

theorem parseFallback_nonneg (raw : String) (q : ℚ) (h : parseFallback raw = some q) :
    0 ≤ q := by
  rw [parseFallback] at h
  split at h
  · split at h
    · rw [Option.some.injEq] at h
      subst h
      exact div_nonneg zero_le_one (jsNumber_nonneg _)
    · exact absurd h (by simp)
  · exact absurd h (by simp)

theorem parseRate_nonneg (r : Option String) (q : ℚ)
    (h : parseDropRateNumeric r = some q) : 0 ≤ q := by
  match r with
  | none => exact absurd h (by simp [parseDropRateNumeric])
  | some raw =>
    rw [parseDropRateNumeric] at h
    split at h
    · exact absurd h (by simp)
    · split at h
      · split at h
        · rw [Option.some.injEq] at h
          subst h
          exact div_nonneg (jsNumber_nonneg _) (jsNumber_nonneg _)
        · exact parseFallback_nonneg _ _ h
      · exact parseFallback_nonneg _ _ h

theorem parseSourceRow_rate {row : Row} {ds : DropSource}
    (h : parseSourceRow row = some ds) :
    ds.dropRateNumeric = parseDropRateNumeric ds.dropRateRaw := by
  simp only [parseSourceRow] at h
  split at h
  · exact absurd h (by simp)
  · split at h
    · exact absurd h (by simp)
    · rw [Option.some.injEq] at h
      subst h
      rfl

theorem applyHeadingHint_fields (heading : String) (ds : DropSource) :
    (applyHeadingHint heading ds).dropRateNumeric = ds.dropRateNumeric
    ∧ (applyHeadingHint heading ds).dropRateRaw = ds.dropRateRaw := by
  simp only [applyHeadingHint]
  split_ifs <;> exact ⟨rfl, rfl⟩

theorem sectionTableSources_rate {heading : String} {t : Table} {ds : DropSource}
    (h : ds ∈ sectionTableSources heading t) :
    ds.dropRateNumeric = parseDropRateNumeric ds.dropRateRaw := by
  rw [sectionTableSources] at h
  split at h
  · exact absurd h (by simp)
  · rw [List.mem_map] at h
    obtain ⟨ds', hmem, rfl⟩ := h
    rw [List.mem_filterMap] at hmem
    obtain ⟨r, _, hr⟩ := hmem
    rw [(applyHeadingHint_fields heading ds').1, (applyHeadingHint_fields heading ds').2]
    exact parseSourceRow_rate hr

theorem parseItemPage_rate (page : Page) (fb : String) (ds : DropSource)
    (h : ds ∈ (parseItemPage page fb).2) :
    ds.dropRateNumeric = parseDropRateNumeric ds.dropRateRaw := by
  simp only [parseItemPage] at h
  rw [List.mem_append] at h
  rcases h with h | h
  · rw [List.mem_flatMap] at h
    obtain ⟨sec, _, hsec⟩ := h
    rw [List.mem_flatMap] at hsec
    obtain ⟨t, _, ht⟩ := hsec
    exact sectionTableSources_rate ht
  · rw [List.mem_flatMap] at h
    obtain ⟨t, _, ht⟩ := h
    rw [List.mem_filterMap] at ht
    obtain ⟨r, _, hr⟩ := ht
    exact parseSourceRow_rate hr

theorem loadLocalChanceDrops_rate (de : Bool) (fs : List (String × Option ChanceFile))
    (n : String) (i : Int) (ds : DropSource)
    (h : ds ∈ loadLocalChanceDrops de fs n i) :
    ds.dropRateNumeric = parseDropRateNumeric ds.dropRateRaw := by
  rw [loadLocalChanceDrops] at h
  split at h
  · exact absurd h (by simp)
  · rw [List.mem_flatMap] at h
    obtain ⟨f, _, hf⟩ := h
    rcases f with ⟨fname, _ | json⟩
    · exact absurd hf (by simp)
    · simp only [chanceFileSources] at hf
      split at hf
      · exact absurd hf (by simp)
      · rw [List.mem_flatMap] at hf
        obtain ⟨sec, _, hsec⟩ := hf
        rw [List.mem_filterMap] at hsec
        obtain ⟨it, _, hit⟩ := hsec
        split at hit
        · rw [Option.some.injEq] at hit
          subst hit
          rfl
        · exact absurd hit (by simp)

/-- C2, corrected: "5/2" parses to 5/2, which is outside (0,1]. -/
theorem c2_counterexample :
    parseDropRateNumeric (some "5/2") = some (5 / 2) ∧ ¬((5 : ℚ) / 2 ≤ 1) := by
  constructor
  · rw [show parseDropRateNumeric (some "5/2")
        = some (jsNumber ⟨['5'], []⟩ / jsNumber ⟨['2'], []⟩) from rfl]
    norm_num [jsNumber, show digitsToNat ['5'] = 5 from rfl,
      show digitsToNat ['2'] = 2 from rfl, show digitsToNat [] = 0 from rfl]
  · norm_num

/-- C2 amended: `parseDropRateNumeric` returns null or a NONNEGATIVE value
(values above 1 and the value 0 are possible, so (0,1] does not hold); and
`dropRateNumeric` of every record produced by page extraction or override
loading is exactly the parser's output on that record's `dropRateRaw`. -/
theorem c2_rate_invariant :
    (∀ (r : Option String) (q : ℚ), parseDropRateNumeric r = some q → 0 ≤ q)
    ∧ (∀ (page : Page) (fb : String) (ds : DropSource),
        ds ∈ (parseItemPage page fb).2 →
        ds.dropRateNumeric = parseDropRateNumeric ds.dropRateRaw)
    ∧ (∀ (de : Bool) (fs : List (String × Option ChanceFile)) (n : String)
        (i : Int) (ds : DropSource), ds ∈ loadLocalChanceDrops de fs n i →
        ds.dropRateNumeric = parseDropRateNumeric ds.dropRateRaw) :=
  ⟨parseRate_nonneg, parseItemPage_rate, loadLocalChanceDrops_rate⟩

theorem c2_rate_invariant_witness : (0 : ℚ) ≤ 5 / 2 :=
  c2_rate_invariant.1 (some "5/2") (5 / 2)
    (by
      rw [show parseDropRateNumeric (some "5/2")
          = some (jsNumber ⟨['5'], []⟩ / jsNumber ⟨['2'], []⟩) from rfl]
      norm_num [jsNumber, show digitsToNat ['5'] = 5 from rfl,
        show digitsToNat ['2'] = 2 from rfl, show digitsToNat [] = 0 from rfl])



theorem mergeLoop_eq_keepFirst : ∀ (l : List DropSource) (seen : List String),
    mergeLoop l seen = keepFirstByKey (l.filter (fun s => !seen.contains (dedupKey s)))
  | [], _ => by simp [mergeLoop, keepFirstByKey]
  | x :: rest, seen => by
    rw [mergeLoop]
    by_cases hx : dedupKey x ∈ seen
    · rw [if_pos hx, List.filter_cons_of_neg (by simp [hx]),
        mergeLoop_eq_keepFirst rest seen]
    · rw [if_neg hx, List.filter_cons_of_pos (by simp [hx]),
        keepFirstByKey, mergeLoop_eq_keepFirst rest (dedupKey x :: seen),
        List.filter_filter]
      congr 1
      congr 1
      apply List.filter_congr
      intro y _
      simp only [List.contains_cons, Bool.not_or, Bool.and_comm, ne_eq, decide_not]
      rfl

/-- C3, counterexample: the code's dedup key is the string
`sourceName|type|(dropRateRaw ?? "")`, not the tuple: two records whose
tuples differ but whose joined strings coincide (a `|` inside a field)
are deduplicated, so the scraped record is dropped although its tuple key
is distinct from the override's. -/
theorem c3_counterexample :
    merge [⟨"x", "monster", some "a|b", none, none, none, none, none⟩]
        [⟨"x", "monster|a", some "b", none, none, none, none, none⟩]
      = [⟨"x", "monster", some "a|b", none, none, none, none, none⟩]
    ∧ (DropSource.sourceName ⟨"x", "monster", some "a|b", none, none, none, none, none⟩,
        DropSource.type ⟨"x", "monster", some "a|b", none, none, none, none, none⟩,
        (DropSource.dropRateRaw ⟨"x", "monster", some "a|b", none, none, none, none, none⟩).getD "")
      ≠ (DropSource.sourceName ⟨"x", "monster|a", some "b", none, none, none, none, none⟩,
        DropSource.type ⟨"x", "monster|a", some "b", none, none, none, none, none⟩,
        (DropSource.dropRateRaw ⟨"x", "monster|a", some "b", none, none, none, none, none⟩).getD "") := by
  constructor
  · rfl
  · decide

/-- C3 amended: `merge` is the concatenation overrides-then-scraped,
deduplicated by the joined string key `sourceName|type|(dropRateRaw or "")`
(which agrees with the tuple key whenever the fields contain no `|`):
the first occurrence of each key is kept, later duplicates are dropped,
survivors keep first-seen order and are not otherwise transformed. -/
theorem c3_merge_dedup (overrides scraped : List DropSource) :
    merge overrides scraped = keepFirstByKey (overrides ++ scraped) := by
  rw [merge, mergeLoop_eq_keepFirst]
  congr 1
  rw [List.filter_eq_self]
  intro a _
  simp



/-- C8: a nonexistent override directory yields the empty list (not an
error); a file whose read/parse fails is skipped and the records of all
remaining files are still returned. -/
theorem c8_loadOverrides_resilient :
    (∀ (files : List (String × Option ChanceFile)) (n : String) (i : Int),
      loadLocalChanceDrops false files n i = [])
    ∧ (∀ (pre post : List (String × Option ChanceFile)) (fname n : String) (i : Int),
        loadLocalChanceDrops true (pre ++ (fname, none) :: post) n i
          = loadLocalChanceDrops true (pre ++ post) n i) := by
  constructor
  · intro files n i
    rfl
  · intro pre post fname n i
    simp only [loadLocalChanceDrops, Bool.not_true, Bool.false_eq_true, if_false,
      List.flatMap_append, List.flatMap_cons]
    rfl

theorem flatMap_nil_of_forall {A B : Type} (l : List A) (f : A → List B)
    (h : ∀ x ∈ l, f x = []) : l.flatMap f = [] := by
  induction l with
  | nil => rfl
  | cons x rest ih =>
    rw [List.flatMap_cons, h x (List.mem_cons_self _ _),
      ih (fun y hy => h y (List.mem_cons_of_mem _ hy))]
    rfl

/-- C7: extraction is total and degrades to the fallback: whenever the
page's primary heading is blank the item title is the supplied fallback
name, and on a page with a blank heading and no tables at all the result
is exactly `(fallback, [])`. -/
theorem c7_extract_fallback :
    (∀ (page : Page) (fb : String), jsTrim page.firstHeading = "" →
      (parseItemPage page fb).1 = fb)
    ∧ (∀ (fb hd : String) (sections : List Section), jsTrim hd = "" →
        (∀ sec ∈ sections, sec.tables = []) →
        parseItemPage ⟨hd, [], sections⟩ fb = (fb, [])) := by
  constructor
  · intro page fb h
    simp [parseItemPage, h]
  · intro fb hd sections h hsec
    have htab : sections.flatMap (fun sec => sec.tables) = [] :=
      flatMap_nil_of_forall _ _ hsec
    have hsrc : sections.flatMap
        (fun sec => sec.tables.flatMap (sectionTableSources sec.heading)) = [] :=
      flatMap_nil_of_forall _ _
        (fun sec hs => by rw [hsec sec hs]; rfl)
    simp [parseItemPage, h, allTables, htab, hsrc]

theorem c7_extract_fallback_witness :
    parseItemPage ⟨"  ", [], [⟨"Drops", []⟩, ⟨"Store locations", []⟩]⟩ "Dragon bones"
      = ("Dragon bones", []) :=
  c7_extract_fallback.2 "Dragon bones" "  " [⟨"Drops", []⟩, ⟨"Store locations", []⟩]
    (by rfl) (by decide)

/-- C10: after input validation, every 500 leaves the per-item cache
untouched (the cache is written only together with a 200 built from the
full pipeline), so a later request for the same id re-runs the pipeline;
any cache change is exactly one new entry holding the full response at a
key that was previously absent. -/
theorem c10_cache_only_on_success (env : ServerEnv) (cache : Cache)
    (query : Option (Option Int)) :
    (∀ msg, (handleRequest env cache query).1 = HandlerResult.serverError msg →
      (handleRequest env cache query).2 = cache)
    ∧ ((handleRequest env cache query).2 = cache
        ∨ ∃ r key, (handleRequest env cache query).1 = HandlerResult.ok r
          ∧ (handleRequest env cache query).2 = (key, r) :: cache
          ∧ cache.lookup key = none) := by
  unfold handleRequest
  dsimp only
  split
  · exact ⟨fun msg h => rfl, Or.inl rfl⟩
  · exact ⟨fun msg h => rfl, Or.inl rfl⟩
  · split
    · exact ⟨fun msg h => rfl, Or.inl rfl⟩
    · next hl =>
      split
      · exact ⟨fun msg h => rfl, Or.inl rfl⟩
      · split
        · exact ⟨fun msg h => rfl, Or.inl rfl⟩
        · exact ⟨fun msg h => HandlerResult.noConfusion h,
            Or.inr ⟨_, _, rfl, rfl, hl⟩⟩

theorem c10_cache_only_on_success_witness :
    (handleRequest ⟨none, fun _ => none, false, []⟩ ([] : Cache)
        (some (some 4151))).2 = ([] : Cache) :=
  (c10_cache_only_on_success ⟨none, fun _ => none, false, []⟩ ([] : Cache)
      (some (some 4151))).1 "Failed to fetch item drops" rfl



theorem heuristicType_ne_shop (sourceName notes : String) :
    heuristicType sourceName notes ≠ "shop" := by
  unfold heuristicType
  split_ifs <;> decide

theorem parseSourceRow_type {row : Row} {ds : DropSource}
    (h : parseSourceRow row = some ds) : ds.type ≠ "shop" := by
  simp only [parseSourceRow] at h
  split at h
  · exact absurd h (by simp)
  · split at h
    · exact absurd h (by simp)
    · rw [Option.some.injEq] at h
      subst h
      exact heuristicType_ne_shop _ _

theorem applyHeadingHint_type (heading : String) (ds : DropSource) :
    (applyHeadingHint heading ds).type = ds.type
    ∨ (applyHeadingHint heading ds).type
        ∈ (["monster", "thieving", "clue", "container"] : List String) := by
  simp only [applyHeadingHint]
  split_ifs <;> simp

theorem applyHeadingHint_type_ne_shop (heading : String) (ds : DropSource)
    (h : ds.type ≠ "shop") : (applyHeadingHint heading ds).type ≠ "shop" := by
  rcases applyHeadingHint_type heading ds with he | he
  · rw [he]
    exact h
  · intro hc
    rw [hc] at he
    simp at he

/-- C5, counterexample: a shop-stock table (class `shop-stock`, two cells
per row) is parsed by the one generic row parser, not by shop-specific
logic: the emitted record has heuristic type "skilling" (the name
"General Store" contains "ore"), quantity "5" (the first number in the
row text), and notes "5 in stock" — not type "shop" with the stock
description as quantity. -/
theorem c5_counterexample :
    parseItemPage
        ⟨"Bronze dagger", [], [⟨"Shop stock", [⟨"shop-stock",
          [⟨[⟨"General Store", []⟩, ⟨"5 in stock", []⟩]⟩]⟩]⟩]⟩ "Bronze dagger"
      = ("Bronze dagger",
          [⟨"General Store", "skilling", none, none, some "5", none,
            some "5 in stock", none⟩])
    ∧ ("skilling" : String) ≠ "shop" :=
  ⟨rfl, by decide⟩

/-- C5 amended: there is no shop-table handling: every table with rows —
whatever its class — goes through the generic row parser, and no extracted
record ever has type "shop" (the heuristic and the heading hints only ever
assign monster/thieving/skilling/container/minigame/clue/other). -/
theorem c5_no_shop_type (page : Page) (fb : String) :
    ((parseItemPage page fb).2.all (fun ds => ds.type != "shop")) = true := by
  rw [List.all_eq_true]
  intro ds hds
  rw [bne_iff_ne, ne_eq]
  simp only [parseItemPage] at hds
  rw [List.mem_append] at hds
  rcases hds with h | h
  · rw [List.mem_flatMap] at h
    obtain ⟨sec, _, hsec⟩ := h
    rw [List.mem_flatMap] at hsec
    obtain ⟨t, _, ht⟩ := hsec
    rw [sectionTableSources] at ht
    split at ht
    · exact absurd ht (by simp)
    · rw [List.mem_map] at ht
      obtain ⟨ds', hmem, rfl⟩ := ht
      rw [List.mem_filterMap] at hmem
      obtain ⟨r, _, hr⟩ := hmem
      exact applyHeadingHint_type_ne_shop _ _ (parseSourceRow_type hr)
  · rw [List.mem_flatMap] at h
    obtain ⟨t, _, ht⟩ := h
    rw [List.mem_filterMap] at ht
    obtain ⟨r, _, hr⟩ := ht
    exact parseSourceRow_type hr



/-- C4, counterexample: a one-cell row reading "No drop" is not skipped:
the code requires only a nonempty first cell (no 4-cell minimum, no
"no drop" sentinel) and even takes that text as the record's raw rate
(it contains the keyword "drop"). -/
theorem c4_counterexample :
    parseSourceRow ⟨[⟨"No drop", []⟩]⟩
      = some ⟨"No drop", "other", some "No drop", none, none, none, none, none⟩
    ∧ (Row.cells ⟨[⟨"No drop", []⟩]⟩).length < 4 :=
  ⟨rfl, by decide⟩

/-- C4 amended: a row is extracted iff it has at least ONE cell and the
whitespace-normalized text of cell 0 is nonempty (no 4-cell minimum, no
"no drop" sentinel); `sourceName` is that normalized cell-0 text,
`dropRateRaw` is the first cell whose text looks like a rate (not fixed
cell 2), `notes` joins the texts of cells 1.. with " | " (not fixed cell
3), and `quantity` is the first number or range found in the joined row
text (not fixed cell 1). -/
theorem c4_row_extraction (row : Row) :
    ((parseSourceRow row).isSome = true ↔
      row.cells ≠ []
      ∧ normalizeName (jsTrim (row.cells.headD ⟨"", []⟩).text) ≠ "")
    ∧ (∀ ds, parseSourceRow row = some ds →
        ds.sourceName = normalizeName (jsTrim (row.cells.headD ⟨"", []⟩).text)
        ∧ ds.dropRateRaw
            = (row.cells.map (fun c => jsTrim c.text)).find? looksLikeRate
        ∧ ds.notes = (if jsTrim (String.intercalate " | "
              ((row.cells.map (fun c => jsTrim c.text)).drop 1)) = "" then none
            else some (jsTrim (String.intercalate " | "
              ((row.cells.map (fun c => jsTrim c.text)).drop 1))))
        ∧ ds.quantity = (scanQty (String.intercalate " "
              (row.cells.map (fun c => jsTrim c.text))).data).map String.mk) := by
  rcases row with ⟨cells⟩
  cases cells with
  | nil =>
    refine ⟨by simp [parseSourceRow], ?_⟩
    intro ds h
    exact absurd h (by simp [parseSourceRow])
  | cons c cs =>
    constructor
    · by_cases hname : normalizeName (jsTrim c.text) = ""
      · simp [parseSourceRow, hname]
      · simp [parseSourceRow, hname]
    · intro ds h
      simp only [parseSourceRow] at h
      split at h
      · exact absurd h (by simp)
      · split at h
        · exact absurd h (by simp)
        · rw [Option.some.injEq] at h
          subst h
          exact ⟨rfl, rfl, rfl, rfl⟩

theorem c4_row_extraction_witness :
    (parseSourceRow ⟨[⟨"Hill giant", []⟩, ⟨"1", []⟩, ⟨"1/128", []⟩]⟩).isSome = true :=
  (c4_row_extraction ⟨[⟨"Hill giant", []⟩, ⟨"1", []⟩, ⟨"1/128", []⟩]⟩).1.mpr
    ⟨by decide, by decide⟩



/-- The display relation claimed for the detail view: higher numeric rate
first, records without a numeric rate after every record with one, ties
broken by ascending source name. -/
def displayBefore (a b : DropSource) : Prop :=
  match a.dropRateNumeric, b.dropRateNumeric with
  | some x, some y => y < x ∨ (y = x ∧ a.sourceName ≤ b.sourceName)
  | some _, none => True
  | none, some _ => False
  | none, none => a.sourceName ≤ b.sourceName

theorem dropLe_trans (a b c : DropSource) (hab : dropLe a b = true)
    (hbc : dropLe b c = true) : dropLe a c = true := by
  simp only [dropLe] at hab hbc ⊢
  by_cases h1 : effRate a = effRate b
  · rw [if_pos h1, decide_eq_true_iff] at hab
    by_cases h2 : effRate b = effRate c
    · rw [if_pos h2, decide_eq_true_iff] at hbc
      rw [if_pos (h1.trans h2), decide_eq_true_iff]
      exact le_trans hab hbc
    · rw [if_neg h2, decide_eq_true_iff] at hbc
      have hne : ¬(effRate a = effRate c) := by
        rw [h1]
        exact fun he => absurd he.symm (ne_of_lt hbc)
      rw [if_neg hne, decide_eq_true_iff, h1]
      exact hbc
  · rw [if_neg h1, decide_eq_true_iff] at hab
    by_cases h2 : effRate b = effRate c
    · have hne : ¬(effRate a = effRate c) := by
        rw [← h2]
        exact fun he => absurd he.symm (ne_of_lt hab)
      rw [if_neg hne, decide_eq_true_iff, ← h2]
      exact hab
    · rw [if_neg h2, decide_eq_true_iff] at hbc
      have hlt : effRate c < effRate a := lt_trans hbc hab
      rw [if_neg (fun he => absurd he.symm (ne_of_lt hlt)), decide_eq_true_iff]
      exact hlt

theorem dropLe_total (a b : DropSource) : (dropLe a b || dropLe b a) = true := by
  simp only [dropLe]
  by_cases h1 : effRate a = effRate b
  · rw [if_pos h1, if_pos h1.symm]
    rcases le_total a.sourceName b.sourceName with h | h
    · simp [h]
    · simp [h]
  · rw [if_neg h1, if_neg (fun he => h1 he.symm)]
    rcases lt_or_gt_of_ne h1 with h | h
    · simp [h]
    · simp [h]

theorem effRate_of_none {a : DropSource} (h : a.dropRateNumeric = none) :
    effRate a = -1 := by
  simp [effRate, h]

theorem effRate_of_some {a : DropSource} {x : ℚ} (h : a.dropRateNumeric = some x) :
    effRate a = x := by
  simp [effRate, h]

theorem dropLe_displayBefore {a b : DropSource} (hab : dropLe a b = true)
    (_ha : ∀ q, a.dropRateNumeric = some q → 0 ≤ q)
    (hb : ∀ q, b.dropRateNumeric = some q → 0 ≤ q) : displayBefore a b := by
  simp only [dropLe] at hab
  rcases hra : a.dropRateNumeric with _ | x <;> rcases hrb : b.dropRateNumeric with _ | y
  · rw [if_pos (by rw [effRate_of_none hra, effRate_of_none hrb]),
      decide_eq_true_iff] at hab
    simp only [displayBefore, hra, hrb]
    exact hab
  · have hy : 0 ≤ y := hb y hrb
    have hne : ¬(effRate a = effRate b) := by
      rw [effRate_of_none hra, effRate_of_some hrb]
      intro he
      rw [← he] at hy
      norm_num at hy
    rw [if_neg hne, decide_eq_true_iff, effRate_of_none hra,
      effRate_of_some hrb] at hab
    have hy2 : (0 : ℚ) ≤ -1 := le_trans hy (le_of_lt hab)
    norm_num at hy2
  · simp only [displayBefore, hra, hrb]
  · simp only [displayBefore, hra, hrb]
    by_cases he : effRate a = effRate b
    · rw [if_pos he, decide_eq_true_iff] at hab
      right
      refine ⟨?_, hab⟩
      rw [effRate_of_some hra, effRate_of_some hrb] at he
      exact he.symm
    · rw [if_neg he, decide_eq_true_iff, effRate_of_some hra,
        effRate_of_some hrb] at hab
      exact Or.inl hab

/-- C9: the detail renderer's sort displays a permutation of the input
records ordered by descending numeric rate, with every record whose rate
is unparseable (null) after all records that have a numeric rate, ties
broken by ascending source name (given that every present numeric rate is
nonnegative, which §C2 establishes for all parser-produced rates). -/
theorem c9_render_sorted (drops : List DropSource)
    (h : ∀ d ∈ drops, ∀ q, d.dropRateNumeric = some q → 0 ≤ q) :
    (renderedOrder drops).Perm drops
    ∧ (renderedOrder drops).Pairwise displayBefore := by
  constructor
  · exact List.mergeSort_perm drops dropLe
  · have hs := List.sorted_mergeSort dropLe_trans dropLe_total drops
    refine List.Pairwise.imp_of_mem ?_ hs
    intro a b hma hmb hab
    have hma' : a ∈ drops := ((List.mergeSort_perm drops dropLe).mem_iff).mp hma
    have hmb' : b ∈ drops := ((List.mergeSort_perm drops dropLe).mem_iff).mp hmb
    exact dropLe_displayBefore hab (h a hma') (h b hmb')

theorem c9_render_sorted_witness :
    (renderedOrder
        [⟨"Zulrah", "monster", some "1/2", some (1 / 2), none, none, none, none⟩,
          ⟨"Abyssal demon", "monster", some "rare", none, none, none, none, none⟩]).Perm
      [⟨"Zulrah", "monster", some "1/2", some (1 / 2), none, none, none, none⟩,
        ⟨"Abyssal demon", "monster", some "rare", none, none, none, none, none⟩]
    ∧ (renderedOrder
        [⟨"Zulrah", "monster", some "1/2", some (1 / 2), none, none, none, none⟩,
          ⟨"Abyssal demon", "monster", some "rare", none, none, none, none, none⟩]).Pairwise
        displayBefore :=
  c9_render_sorted
    [⟨"Zulrah", "monster", some "1/2", some (1 / 2), none, none, none, none⟩,
      ⟨"Abyssal demon", "monster", some "rare", none, none, none, none, none⟩]
    (by
      intro d hd q hq
      rcases List.mem_cons.mp hd with rfl | hd2
      · rw [show DropSource.dropRateNumeric
            ⟨"Zulrah", "monster", some "1/2", some (1 / 2), none, none, none, none⟩
            = some (1 / 2) from rfl, Option.some.injEq] at hq
        subst hq
        norm_num
      · rcases List.mem_cons.mp hd2 with rfl | hd3
        · exact absurd hq (by simp)
        · exact absurd hd3 (by simp))


end ChanceMan
